import Mathlib

/-!
Shallow embedding of the substitution-model core declared in
src/modelsubst.h and src/modelbin.h of the PDA repository.

The repository snapshot holds only the two headers; method bodies live in
translation units (modelsubst.cpp, modelbin.cpp, tools.h, gtrmodel.h) that
are not part of src/. Definitions whose doc comment begins with
"Modelled from the spec:" embed such a missing body, faithful to the
words of the specification and to the doc comments of the headers.
Everything else embeds code that is textually present in the headers
(inline member bodies and default arguments).
-/

noncomputable section

open Filter

/-- State frequency type. The StateFreqType enum comes from tools.h, which is
not part of this snapshot; the four alternatives named by the spec
(equal, empirical, user, estimate) are modelled. -/
inductive StateFreqType where
  | FREQ_EQUAL
  | FREQ_EMPIRICAL
  | FREQ_USER_DEFINED
  | FREQ_ESTIMATE
  deriving DecidableEq

/-- Modelled from the spec: the body of ModelSubst::computeTransMatrix is in
modelsubst.cpp, absent from this snapshot; modelsubst.h lines 65-72 declare it
and document the default as the Jukes-Cantor model. The spec gives the closed
form of a diagonal entry: 1/n + (n-1)/n * exp(-n/(n-1) * time). -/
def jcDiag (n : ℕ) (time : ℝ) : ℝ :=
  1/(n:ℝ) + ((n:ℝ) - 1)/(n:ℝ) * Real.exp (-((n:ℝ)/((n:ℝ) - 1)) * time)

/-- Modelled from the spec: closed form of an off-diagonal entry of the
default transition matrix: 1/n - 1/n * exp(-n/(n-1) * time). -/
def jcOff (n : ℕ) (time : ℝ) : ℝ :=
  1/(n:ℝ) - 1/(n:ℝ) * Real.exp (-((n:ℝ)/((n:ℝ) - 1)) * time)

/-- Modelled from the spec: the default ModelSubst::computeTransMatrix fills a
flat row-major buffer of size num_states * num_states (spec section 6 gives
the layout; modelsubst.h line 70 states the assumed size) with the
Jukes-Cantor closed form: entry (i, j) sits at index i*n + j and equals
jcDiag for i = j, jcOff otherwise. -/
def computeTransMatrix (n : ℕ) (time : ℝ) : List ℝ :=
  (List.range (n*n)).map fun k => if k / n = k % n then jcDiag n time else jcOff n time

/-- Modelled from the spec: the single-entry default
ModelSubst::computeTrans(time, state1, state2) (modelsubst.h lines 82-90);
the spec requires it to follow the same arithmetic path as the matrix fill:
the Jukes-Cantor closed form for the requested pair of states. -/
def computeTrans (n : ℕ) (time : ℝ) (state1 state2 : ℕ) : ℝ :=
  if state1 = state2 then jcDiag n time else jcOff n time

/-- Modelled from the spec: analytic first time-derivative of a diagonal
entry of the default closed form, d/dt of jcDiag. -/
def jcDiagDerv1 (n : ℕ) (time : ℝ) : ℝ :=
  ((n:ℝ) - 1)/(n:ℝ) * (-((n:ℝ)/((n:ℝ) - 1)))
    * Real.exp (-((n:ℝ)/((n:ℝ) - 1)) * time)

/-- Modelled from the spec: analytic first time-derivative of an off-diagonal
entry of the default closed form, d/dt of jcOff. -/
def jcOffDerv1 (n : ℕ) (time : ℝ) : ℝ :=
  -(1/(n:ℝ)) * (-((n:ℝ)/((n:ℝ) - 1)))
    * Real.exp (-((n:ℝ)/((n:ℝ) - 1)) * time)

/-- Modelled from the spec: analytic second time-derivative of a diagonal
entry of the default closed form. -/
def jcDiagDerv2 (n : ℕ) (time : ℝ) : ℝ :=
  ((n:ℝ) - 1)/(n:ℝ) * ((n:ℝ)/((n:ℝ) - 1))^2
    * Real.exp (-((n:ℝ)/((n:ℝ) - 1)) * time)

/-- Modelled from the spec: analytic second time-derivative of an off-diagonal
entry of the default closed form. -/
def jcOffDerv2 (n : ℕ) (time : ℝ) : ℝ :=
  -(1/(n:ℝ)) * ((n:ℝ)/((n:ℝ) - 1))^2
    * Real.exp (-((n:ℝ)/((n:ℝ) - 1)) * time)

/-- Modelled from the spec: the derivative-returning overload
ModelSubst::computeTrans(time, state1, state2, derv1, derv2)
(modelsubst.h lines 103-113); returns the probability together with the two
values written through derv1 and derv2: the analytic first and second
time-derivatives of the same closed-form entry. -/
def computeTransWithDerv (n : ℕ) (time : ℝ) (state1 state2 : ℕ) : ℝ × ℝ × ℝ :=
  (computeTrans n time state1 state2,
   if state1 = state2 then jcDiagDerv1 n time else jcOffDerv1 n time,
   if state1 = state2 then jcDiagDerv2 n time else jcOffDerv2 n time)

/-- Modelled from the spec: the full-matrix variant
ModelSubst::computeTransDerv(time, trans_matrix, trans_derv1, trans_derv2)
(modelsubst.h lines 173-182): fills the probability buffer and the two
derivative buffers in one pass, same layout as computeTransMatrix. -/
def computeTransDerv (n : ℕ) (time : ℝ) : List ℝ × List ℝ × List ℝ :=
  (computeTransMatrix n time,
   (List.range (n*n)).map fun k =>
     if k / n = k % n then jcDiagDerv1 n time else jcOffDerv1 n time,
   (List.range (n*n)).map fun k =>
     if k / n = k % n then jcDiagDerv2 n time else jcOffDerv2 n time)

/-- Modelled from the spec: the default ModelSubst::getStateFrequency
(modelsubst.h lines 150-155, "The default is equal state frequency"):
every entry of the length-n frequency vector is 1/n. -/
def getStateFrequency (n : ℕ) : List ℝ :=
  List.replicate n (1/(n:ℝ))

/-- Embeds the inline body of ModelSubst::getPtnModelID (modelsubst.h
line 132): returns 0 for every pattern ID. -/
def getPtnModelID (ptn : ℤ) : ℤ := 0

/-- Embeds the inline body of ModelSubst::isSiteSpecificModel (modelsubst.h
line 51): returns false. -/
def isSiteSpecificModel : Bool := false

/-- The data members of ModelSubst (modelsubst.h lines 215-240):
number of states, names, state frequency vector and frequency type. -/
structure ModelSubstState where
  num_states : ℕ
  name : String
  full_name : String
  state_freq : List ℝ
  freq_type : StateFreqType

/-- Embeds the inline default body of ModelSubst::setVariables (modelsubst.h
line 254): the body is empty, so neither the model state nor the variables
buffer changes. -/
def setVariables (m : ModelSubstState) (vars : List ℝ) :
    ModelSubstState × List ℝ :=
  (m, vars)

/-- Embeds the inline default body of ModelSubst::getVariables (modelsubst.h
line 261): the body is empty, so neither the model state nor the variables
buffer changes. -/
def getVariables (m : ModelSubstState) (vars : List ℝ) :
    ModelSubstState × List ℝ :=
  (m, vars)

/-- Modelled from the spec: the overriding pack implementations for models
with free parameters are in source files absent from this snapshot. The doc
comment of setVariables (modelsubst.h lines 249-254) documents it as packing
the model parameters into a vector indexed from 1, the vector being marked
as the OUT parameter. Here params is the free-parameter list of the model and
vars the optimizer vector; the result is the unchanged model parameters
together with the vector whose slot 0 is untouched and whose slots
1..params.length receive the model parameters. -/
def setVariablesPacked (params vars : List ℝ) : List ℝ × List ℝ :=
  (params, vars.take 1 ++ params ++ vars.drop (1 + params.length))

/-- Modelled from the spec: the doc comment of getVariables (modelsubst.h
lines 256-261) documents it as assigning the model parameters from the
vector indexed from 1. The result is the new model parameter list, read from
slots 1..params.length of the vector, together with the unchanged vector. -/
def getVariablesPacked (params vars : List ℝ) : List ℝ × List ℝ :=
  ((vars.drop 1).take params.length, vars)

/-- The argument binding of the ModelBIN constructor (modelbin.h line 39).
The body (via init) is in modelbin.cpp, absent from this snapshot, so
construction is embedded at the level of the arguments it binds. -/
structure ModelBINConfig where
  model_name : String
  model_params : String
  freq : StateFreqType
  freq_params : String
  count_rates : Bool

/-- The ModelBIN constructor called with all six arguments
(modelbin.h line 39). -/
def ModelBIN.construct (model_name model_params : String) (freq : StateFreqType)
    (freq_params : String) (count_rates : Bool) : ModelBINConfig :=
  ⟨model_name, model_params, freq, freq_params, count_rates⟩

/-- The ModelBIN constructor called with the count_rates argument omitted:
the C++ default argument (bool count_rates = true in modelbin.h line 39)
binds it to true. -/
def ModelBIN.constructDefault (model_name model_params : String)
    (freq : StateFreqType) (freq_params : String) : ModelBINConfig :=
  ModelBIN.construct model_name model_params freq freq_params true

/-! Helper lemmas about buffer indexing. -/

lemma getD_range_map (f : ℕ → ℝ) (m k : ℕ) (hk : k < m) :
    ((List.range m).map f).getD k 0 = f k := by
  rw [List.getD_eq_getElem?_getD, List.getElem?_map, List.getElem?_range hk]
  rfl

lemma rowmajor_div (n i j : ℕ) (hn : 0 < n) (hj : j < n) : (i*n + j) / n = i := by
  rw [Nat.add_comm, Nat.add_mul_div_right j i hn, Nat.div_eq_of_lt hj, Nat.zero_add]

lemma rowmajor_mod (n i j : ℕ) (hj : j < n) : (i*n + j) % n = j := by
  rw [Nat.add_comm, Nat.add_mul_mod_self_right, Nat.mod_eq_of_lt hj]

lemma rowmajor_lt (n i j : ℕ) (hi : i < n) (hj : j < n) : i*n + j < n*n := by
  calc i*n + j < i*n + n := by omega
    _ = (i+1)*n := by ring
    _ ≤ n*n := Nat.mul_le_mul_right n hi

/-- Entry (i, j) of the flat transition-matrix buffer. -/
lemma transMatrix_entry (n : ℕ) (time : ℝ) (i j : ℕ) (hi : i < n) (hj : j < n) :
    (computeTransMatrix n time).getD (i*n + j) 0
      = if i = j then jcDiag n time else jcOff n time := by
  have hn : 0 < n := lt_of_le_of_lt (Nat.zero_le i) hi
  unfold computeTransMatrix
  rw [getD_range_map _ _ _ (rowmajor_lt n i j hi hj),
    rowmajor_div n i j hn hj, rowmajor_mod n i j hj]

/-- C1: for every model with n states and every time t at least 0, the default
computeTransMatrix fills the n-by-n buffer with the Jukes-Cantor closed form:
every diagonal entry is 1/n + (n-1)/n * exp(-n/(n-1) * t), every off-diagonal
entry is 1/n - 1/n * exp(-n/(n-1) * t); for n = 4 and t = 0.1 the diagonal
entry is 1/4 + 3/4 * exp(-4/3 * 0.1) and the off-diagonal entry is
1/4 - 1/4 * exp(-4/3 * 0.1). -/
theorem C1_closed_form (n : ℕ) (time : ℝ) (i j : ℕ)
    (hn : 2 ≤ n) (ht : 0 ≤ time) (hi : i < n) (hj : j < n) :
    (computeTransMatrix n time).length = n*n ∧
    (i = j → (computeTransMatrix n time).getD (i*n + j) 0
        = 1/(n:ℝ) + ((n:ℝ) - 1)/(n:ℝ) * Real.exp (-((n:ℝ)/((n:ℝ) - 1)) * time)) ∧
    (i ≠ j → (computeTransMatrix n time).getD (i*n + j) 0
        = 1/(n:ℝ) - 1/(n:ℝ) * Real.exp (-((n:ℝ)/((n:ℝ) - 1)) * time)) ∧
    (computeTransMatrix 4 (1/10)).getD 0 0
        = 1/4 + 3/4 * Real.exp (-(4/3) * (1/10)) ∧
    (computeTransMatrix 4 (1/10)).getD 1 0
        = 1/4 - 1/4 * Real.exp (-(4/3) * (1/10)) := by
  refine ⟨by simp [computeTransMatrix], ?_, ?_, ?_, ?_⟩
  · intro hij
    rw [transMatrix_entry n time i j hi hj, if_pos hij]
    rfl
  · intro hij
    rw [transMatrix_entry n time i j hi hj, if_neg hij]
    rfl
  · have h := transMatrix_entry 4 (1/10) 0 0 (by norm_num) (by norm_num)
    rw [show (0:ℕ)*4 + 0 = 0 from rfl, if_pos rfl] at h
    rw [h]
    norm_num [jcDiag]
  · have h := transMatrix_entry 4 (1/10) 0 1 (by norm_num) (by norm_num)
    rw [show (0:ℕ)*4 + 1 = 1 from rfl,
      if_neg (by norm_num : (0:ℕ) ≠ 1)] at h
    rw [h]
    norm_num [jcOff]

theorem C1_closed_form_witness :
    2 ≤ 4 ∧
    (computeTransMatrix 4 (1/10)).getD 0 0
        = 1/4 + 3/4 * Real.exp (-(4/3) * (1/10)) :=
  ⟨by norm_num,
   (C1_closed_form 4 (1/10) 0 1 (by norm_num) (by norm_num) (by norm_num)
      (by norm_num)).2.2.2.1⟩

/-- C2: every row of the matrix produced by the default computeTransMatrix
sums to exactly 1 (hence certainly within the stated tolerance of 1e-9). -/
theorem C2_row_sum (n : ℕ) (time : ℝ) (i : ℕ)
    (hn : 2 ≤ n) (ht : 0 ≤ time) (hi : i < n) :
    ∑ j ∈ Finset.range n, (computeTransMatrix n time).getD (i*n + j) 0 = 1 := by
  have hrw : ∀ j ∈ Finset.range n,
      (computeTransMatrix n time).getD (i*n + j) 0
        = jcOff n time + (if i = j then jcDiag n time - jcOff n time else 0) := by
    intro j hj
    rw [transMatrix_entry n time i j hi (Finset.mem_range.mp hj)]
    by_cases h : i = j <;> simp [h]
  rw [Finset.sum_congr rfl hrw, Finset.sum_add_distrib, Finset.sum_const,
    Finset.sum_ite_eq (Finset.range n) i
      (fun _ => jcDiag n time - jcOff n time),
    if_pos (Finset.mem_range.mpr hi)]
  have hn0 : ((n:ℝ)) ≠ 0 := Nat.cast_ne_zero.mpr (by omega)
  simp only [Finset.card_range, nsmul_eq_mul]
  unfold jcDiag jcOff
  generalize Real.exp (-((n:ℝ)/((n:ℝ) - 1)) * time) = e
  field_simp
  ring

theorem C2_row_sum_witness :
    2 ≤ 4 ∧ (0:ℝ) ≤ 1 ∧ 0 < 4 ∧
    ∑ j ∈ Finset.range 4, (computeTransMatrix 4 1).getD (0*4 + j) 0 = 1 :=
  ⟨by norm_num, by norm_num, by norm_num,
   C2_row_sum 4 1 0 (by norm_num) (by norm_num) (by norm_num)⟩

/-- C3: the single-entry computeTrans returns exactly the value stored at
row i, column j of the buffer filled by computeTransMatrix, by the same
arithmetic path. -/
theorem C3_single_entry_eq_matrix (n : ℕ) (time : ℝ) (i j : ℕ)
    (ht : 0 ≤ time) (hi : i < n) (hj : j < n) :
    computeTrans n time i j = (computeTransMatrix n time).getD (i*n + j) 0 := by
  rw [transMatrix_entry n time i j hi hj]
  rfl

theorem C3_single_entry_eq_matrix_witness :
    (0:ℝ) ≤ 1 ∧ 1 < 4 ∧ 2 < 4 ∧
    computeTrans 4 1 1 2 = (computeTransMatrix 4 1).getD (1*4 + 2) 0 :=
  ⟨by norm_num, by norm_num, by norm_num,
   C3_single_entry_eq_matrix 4 1 1 2 (by norm_num) (by norm_num) (by norm_num)⟩

/-- C7: at time 0 the default computeTransMatrix produces the identity
matrix exactly: diagonal entries 1, off-diagonal entries 0, for every
number of states n at least 2. -/
theorem C7_identity_at_time_zero (n : ℕ) (i j : ℕ)
    (hn : 2 ≤ n) (hi : i < n) (hj : j < n) :
    (computeTransMatrix n 0).getD (i*n + j) 0 = if i = j then (1:ℝ) else 0 := by
  rw [transMatrix_entry n 0 i j hi hj]
  have hn0 : ((n:ℝ)) ≠ 0 := Nat.cast_ne_zero.mpr (by omega)
  by_cases h : i = j
  · rw [if_pos h, if_pos h]
    unfold jcDiag
    rw [mul_zero, Real.exp_zero, mul_one]
    field_simp
  · rw [if_neg h, if_neg h]
    unfold jcOff
    rw [mul_zero, Real.exp_zero, mul_one, sub_self]

theorem C7_identity_at_time_zero_witness :
    2 ≤ 2 ∧ 0 < 2 ∧ 1 < 2 ∧
    (computeTransMatrix 2 0).getD (0*2 + 1) 0 = if 0 = 1 then (1:ℝ) else 0 :=
  ⟨by norm_num, by norm_num, by norm_num,
   C7_identity_at_time_zero 2 0 1 (by norm_num) (by norm_num) (by norm_num)⟩

/-! Derivative helper lemmas. -/

lemma hasDerivAt_exp_neg_mul (r t : ℝ) :
    HasDerivAt (fun s : ℝ => Real.exp (-r * s)) (-r * Real.exp (-r * t)) t := by
  have h1 : HasDerivAt (fun s : ℝ => -r * s) (-r) t := by
    simpa using (hasDerivAt_id t).const_mul (-r)
  simpa [Function.comp_def, mul_comm] using (Real.hasDerivAt_exp (-r * t)).comp t h1

lemma hasDerivAt_const_mul_exp (c r t : ℝ) :
    HasDerivAt (fun s : ℝ => c * Real.exp (-r * s))
      (c * -r * Real.exp (-r * t)) t := by
  simpa [mul_assoc] using (hasDerivAt_exp_neg_mul r t).const_mul c

lemma jcDiag_hasDerivAt (n : ℕ) (t : ℝ) :
    HasDerivAt (fun s => jcDiag n s) (jcDiagDerv1 n t) t := by
  unfold jcDiag jcDiagDerv1
  exact (hasDerivAt_const_mul_exp _ _ t).const_add _

lemma jcOff_hasDerivAt (n : ℕ) (t : ℝ) :
    HasDerivAt (fun s => jcOff n s) (jcOffDerv1 n t) t := by
  unfold jcOff jcOffDerv1
  have h := (hasDerivAt_const_mul_exp (1/(n:ℝ)) ((n:ℝ)/((n:ℝ) - 1)) t).const_sub
    (1/(n:ℝ))
  convert h using 1
  ring

lemma jcDiagDerv1_hasDerivAt (n : ℕ) (t : ℝ) :
    HasDerivAt (fun s => jcDiagDerv1 n s) (jcDiagDerv2 n t) t := by
  unfold jcDiagDerv1 jcDiagDerv2
  have h := hasDerivAt_const_mul_exp
    (((n:ℝ) - 1)/(n:ℝ) * (-((n:ℝ)/((n:ℝ) - 1)))) ((n:ℝ)/((n:ℝ) - 1)) t
  convert h using 1
  ring

lemma jcOffDerv1_hasDerivAt (n : ℕ) (t : ℝ) :
    HasDerivAt (fun s => jcOffDerv1 n s) (jcOffDerv2 n t) t := by
  unfold jcOffDerv1 jcOffDerv2
  have h := hasDerivAt_const_mul_exp
    (-(1/(n:ℝ)) * (-((n:ℝ)/((n:ℝ) - 1)))) ((n:ℝ)/((n:ℝ) - 1)) t
  convert h using 1
  ring

/-- Entry (i, j) of a flat buffer filled with fd on the diagonal and fo off
the diagonal, as the derivative buffers of computeTransDerv are. -/
lemma getD_jc_fill (fd fo : ℝ) (n i j : ℕ) (hi : i < n) (hj : j < n) :
    (((List.range (n*n)).map fun k =>
        if k / n = k % n then fd else fo).getD (i*n + j) 0)
      = if i = j then fd else fo := by
  have hn : 0 < n := lt_of_le_of_lt (Nat.zero_le i) hi
  rw [getD_range_map _ _ _ (rowmajor_lt n i j hi hj), rowmajor_div n i j hn hj,
    rowmajor_mod n i j hj]

/-- C4: the derivative-returning computeTrans returns, alongside the
transition probability, exactly the analytic first and second
time-derivatives of that probability (not finite differences), and the
full-matrix computeTransDerv produces the same three values at every
(i, j). -/
theorem C4_analytic_derivatives (n : ℕ) (time : ℝ) (i j : ℕ)
    (ht : 0 ≤ time) (hi : i < n) (hj : j < n) :
    HasDerivAt (fun s => computeTrans n s i j)
      (computeTransWithDerv n time i j).2.1 time ∧
    HasDerivAt (fun s => (computeTransWithDerv n s i j).2.1)
      (computeTransWithDerv n time i j).2.2 time ∧
    (computeTransWithDerv n time i j).1 = computeTrans n time i j ∧
    (computeTransDerv n time).1.getD (i*n + j) 0
        = (computeTransWithDerv n time i j).1 ∧
    (computeTransDerv n time).2.1.getD (i*n + j) 0
        = (computeTransWithDerv n time i j).2.1 ∧
    (computeTransDerv n time).2.2.getD (i*n + j) 0
        = (computeTransWithDerv n time i j).2.2 := by
  refine ⟨?_, ?_, rfl, ?_, ?_, ?_⟩
  · by_cases h : i = j
    · simpa [computeTrans, computeTransWithDerv, h] using jcDiag_hasDerivAt n time
    · simpa [computeTrans, computeTransWithDerv, h] using jcOff_hasDerivAt n time
  · by_cases h : i = j
    · simpa [computeTransWithDerv, h] using jcDiagDerv1_hasDerivAt n time
    · simpa [computeTransWithDerv, h] using jcOffDerv1_hasDerivAt n time
  · rw [show (computeTransDerv n time).1 = computeTransMatrix n time from rfl,
      transMatrix_entry n time i j hi hj]
    rfl
  · rw [show (computeTransDerv n time).2.1
        = ((List.range (n*n)).map fun k =>
            if k / n = k % n then jcDiagDerv1 n time else jcOffDerv1 n time)
      from rfl,
      getD_jc_fill (jcDiagDerv1 n time) (jcOffDerv1 n time) n i j hi hj]
    rfl
  · rw [show (computeTransDerv n time).2.2
        = ((List.range (n*n)).map fun k =>
            if k / n = k % n then jcDiagDerv2 n time else jcOffDerv2 n time)
      from rfl,
      getD_jc_fill (jcDiagDerv2 n time) (jcOffDerv2 n time) n i j hi hj]
    rfl

theorem C4_analytic_derivatives_witness :
    ((0:ℝ) ≤ 1 ∧ 0 < 4 ∧ 1 < 4) ∧
    HasDerivAt (fun s => computeTrans 4 s 0 1)
      (computeTransWithDerv 4 1 0 1).2.1 1 ∧
    (computeTransDerv 4 1).2.1.getD (0*4 + 1) 0
        = (computeTransWithDerv 4 1 0 1).2.1 :=
  ⟨⟨by norm_num, by norm_num, by norm_num⟩,
   (C4_analytic_derivatives 4 1 0 1 (by norm_num) (by norm_num)
      (by norm_num)).1,
   (C4_analytic_derivatives 4 1 0 1 (by norm_num) (by norm_num)
      (by norm_num)).2.2.2.2.1⟩

/-- C8: as t tends to infinity, every entry of row i of the default
transition matrix converges to the corresponding entry of the stationary
frequency vector, which is 1/n for the equal-frequency default. -/
theorem C8_limit_is_stationary_frequency (n : ℕ) (i j : ℕ)
    (hn : 2 ≤ n) (hi : i < n) (hj : j < n) :
    Tendsto (fun time => (computeTransMatrix n time).getD (i*n + j) 0)
      atTop (nhds ((getStateFrequency n).getD j 0)) := by
  have hn2 : (2:ℝ) ≤ (n:ℝ) := by exact_mod_cast hn
  have hr : 0 < (n:ℝ)/((n:ℝ) - 1) := div_pos (by linarith) (by linarith)
  have hfreq : (getStateFrequency n).getD j 0 = 1/(n:ℝ) := by
    unfold getStateFrequency
    rw [List.getD_eq_getElem?_getD, List.getElem?_replicate_of_lt hj]
    rfl
  have heq : (fun time => (computeTransMatrix n time).getD (i*n + j) 0)
      = fun time => if i = j then jcDiag n time else jcOff n time :=
    funext fun time => transMatrix_entry n time i j hi hj
  have hlin : Tendsto (fun time : ℝ => -((n:ℝ)/((n:ℝ) - 1)) * time)
      atTop atBot := by
    have h1 : Tendsto (fun time : ℝ => ((n:ℝ)/((n:ℝ) - 1)) * time) atTop atTop :=
      Tendsto.const_mul_atTop hr tendsto_id
    have h2 := tendsto_neg_atTop_atBot.comp h1
    simpa [Function.comp_def] using h2
  have hexp : Tendsto (fun time : ℝ => Real.exp (-((n:ℝ)/((n:ℝ) - 1)) * time))
      atTop (nhds 0) := Real.tendsto_exp_atBot.comp hlin
  rw [heq, hfreq]
  by_cases h : i = j
  · simp only [if_pos h]
    unfold jcDiag
    simpa using (hexp.const_mul (((n:ℝ) - 1)/(n:ℝ))).const_add (1/(n:ℝ))
  · simp only [if_neg h]
    unfold jcOff
    simpa using (hexp.const_mul (1/(n:ℝ))).const_sub (1/(n:ℝ))

theorem C8_limit_is_stationary_frequency_witness :
    (2 ≤ 4 ∧ 0 < 4 ∧ 1 < 4) ∧
    Tendsto (fun time => (computeTransMatrix 4 time).getD (0*4 + 1) 0)
      atTop (nhds ((getStateFrequency 4).getD 1 0)) :=
  ⟨⟨by norm_num, by norm_num, by norm_num⟩,
   C8_limit_is_stationary_frequency 4 0 1 (by norm_num) (by norm_num)
     (by norm_num)⟩

/-- C9: for every pattern ID, the default getPtnModelID returns 0, and the
default isSiteSpecificModel returns false: the base model maps every
alignment pattern to the single model ID 0. -/
theorem C9_ptn_model_id (ptn : ℤ) :
    getPtnModelID ptn = 0 ∧ isSiteSpecificModel = false :=
  ⟨rfl, rfl⟩

/-- C6: the default setVariables is an empty body, so it leaves the
state_freq vector and all other model state exactly as it was, and does not
touch the variables buffer either. -/
theorem C6_setVariables_frame (m : ModelSubstState) (vars : List ℝ) :
    (setVariables m vars).1.state_freq = m.state_freq ∧
    (setVariables m vars).1 = m ∧
    (setVariables m vars).2 = vars :=
  ⟨rfl, rfl, rfl⟩

/-- C5 counterexample: the claim asserts the data-flow direction of the
spec (getVariables reads the model out into vars, setVariables writes vars
back into the model). On the contract documented in modelsubst.h lines
249-261 the directions are the opposite: at model parameters [2] and
optimizer vector [0, 5], setVariables leaves the model at [2] instead of
assigning [5] to it, and in fact packs the model into the vector giving
[0, 2]; getVariables leaves the vector at [0, 5] instead of writing [0, 2]
into it, and instead assigns [5] to the model. -/
theorem C5_counterexample :
    (setVariablesPacked [2] [0, 5]).1 ≠ [5] ∧
    (setVariablesPacked [2] [0, 5]).2 = [0, 2] ∧
    (getVariablesPacked [2] [0, 5]).2 ≠ [0, 2] ∧
    (getVariablesPacked [2] [0, 5]).1 = [5] := by
  refine ⟨?_, ?_, ?_, ?_⟩ <;> norm_num [setVariablesPacked, getVariablesPacked]

/-- C5 (amended): the pack/unpack contract with the directions of
modelsubst.h: setVariables packs the model parameters out into the
1-indexed vector, leaving the model and slot 0 of the vector unchanged;
getVariables assigns the model parameters from slots 1..ndim of the vector,
leaving the vector unchanged; and the default implementations of both are
no-ops. -/
theorem C5_pack_unpack_contract (params vars : List ℝ)
    (hlen : params.length + 1 ≤ vars.length) :
    (setVariablesPacked params vars).1 = params ∧
    (setVariablesPacked params vars).2.getD 0 0 = vars.getD 0 0 ∧
    (∀ k, k < params.length →
      (setVariablesPacked params vars).2.getD (k+1) 0 = params.getD k 0) ∧
    (setVariablesPacked params vars).2.length = vars.length ∧
    (getVariablesPacked params vars).2 = vars ∧
    (getVariablesPacked params vars).1.length = params.length ∧
    (∀ k, k < params.length →
      (getVariablesPacked params vars).1.getD k 0 = vars.getD (k+1) 0) ∧
    (∀ m v, setVariables m v = (m, v)) ∧
    (∀ m v, getVariables m v = (m, v)) := by
  have htake : (vars.take 1).length = 1 := by
    rw [List.length_take]
    omega
  refine ⟨rfl, ?_, ?_, ?_, rfl, ?_, ?_, fun m v => rfl, fun m v => rfl⟩
  · show (vars.take 1 ++ params ++ vars.drop (1 + params.length)).getD 0 0
        = vars.getD 0 0
    rw [List.getD_eq_getElem?_getD, List.getD_eq_getElem?_getD,
      List.append_assoc,
      List.getElem?_append_left (by rw [htake]; omega),
      List.getElem?_take_of_lt (by omega)]
  · intro k hk
    show (vars.take 1 ++ params ++ vars.drop (1 + params.length)).getD (k+1) 0
        = params.getD k 0
    rw [List.getD_eq_getElem?_getD, List.getD_eq_getElem?_getD,
      List.append_assoc,
      List.getElem?_append_right (by rw [htake]; omega), htake,
      Nat.add_sub_cancel, List.getElem?_append_left hk]
  · show (vars.take 1 ++ params ++ vars.drop (1 + params.length)).length
        = vars.length
    simp only [List.length_append, htake, List.length_drop]
    omega
  · show ((vars.drop 1).take params.length).length = params.length
    rw [List.length_take, List.length_drop]
    omega
  · intro k hk
    show ((vars.drop 1).take params.length).getD k 0 = vars.getD (k+1) 0
    rw [List.getD_eq_getElem?_getD, List.getD_eq_getElem?_getD,
      List.getElem?_take_of_lt hk, List.getElem?_drop, Nat.add_comm 1 k]

theorem C5_pack_unpack_contract_witness :
    ([(2:ℝ)] : List ℝ).length + 1 ≤ ([0, 5] : List ℝ).length ∧
    (setVariablesPacked [2] [0, 5]).1 = [2] ∧
    (setVariablesPacked [2] [0, 5]).2.getD (0+1) 0
        = ([(2:ℝ)] : List ℝ).getD 0 0 :=
  ⟨by norm_num,
   (C5_pack_unpack_contract [2] [0, 5] (by norm_num)).1,
   (C5_pack_unpack_contract [2] [0, 5] (by norm_num)).2.2.1 0 (by norm_num)⟩

/-- C10: constructing a ModelBIN without the count_rates argument binds the
same configuration as constructing it with count_rates = true, by the C++
default argument in the constructor declaration. -/
theorem C10_count_rates_default (model_name model_params : String)
    (freq : StateFreqType) (freq_params : String) :
    ModelBIN.constructDefault model_name model_params freq freq_params
        = ModelBIN.construct model_name model_params freq freq_params true ∧
    (ModelBIN.constructDefault model_name model_params freq freq_params).count_rates
        = true :=
  ⟨rfl, rfl⟩

end
